import Mathlib

/-!
Verification of `scripts/fix_audio_associations.py` (GameWatcher).

The script is a single batch pass: it loads a JSON dialogue catalog, builds an
inventory of `.mp3` files keyed by speaker from the subdirectories of a voices
root, greedily assigns the first available file of the matching speaker to each
entry whose audio path is empty or stale, and writes the catalog back.

Embedding choices, each tied to the source:

* A JSON value is `JVal` (string, bool, integer, null); a dialogue entry is a
  Python dict modelled as an association list `Dialogue` with insertion-order
  semantics (`dictGet` / `dictGetD` / `dictSet`).
* The filesystem is abstract: `os.path.exists` becomes a predicate
  `fe : String → Bool`; the listing of the voices directory becomes a
  `List DirEnt` where each `DirEnt` carries the directory name, whether it is a
  directory, and the full-path strings returned by `glob("*.mp3")` in listing
  order.
* Python runtime errors (a `KeyError` on `dialogue["Speaker"]`,
  `dialogue['Id']` or `dialogue['Text']`, and a `TypeError` from
  `os.path.exists` / slicing applied to a non-string value) abort the run;
  the per-entry step `processOne` therefore returns an `Option`, and the whole
  pass `runRepair` is `none` when any entry raises.  A list-valued `Text`
  would slice fine in Python but cannot occur in this catalog; it is modelled
  as an error together with the other non-string cases.
* Paths for the repo-root walk are reversed component lists (`RPath`): the
  head is the deepest component, `parent` is `List.tail`, the filesystem root
  is `[]`.
-/

namespace FixAudio

/-- A JSON scalar value as found in the dialogue catalog. -/
inductive JVal where
  | str : String → JVal
  | bool : Bool → JVal
  | num : Int → JVal
  | null : JVal
deriving DecidableEq

/-- A dialogue entry: a Python dict in insertion order. -/
abbrev Dialogue := List (String × JVal)

/-- `audio_files_by_speaker`: speaker name ↦ remaining `.mp3` paths, in
directory-listing order (a Python dict of lists, insertion-ordered). -/
abbrev Inv := List (String × List String)

/-- Python `d[k]` / `k in d`: the value at the first (unique, for a real dict)
occurrence of key `k`. -/
def dictGet (d : Dialogue) (k : String) : Option JVal :=
  (d.find? (fun p => p.1 == k)).map (fun p => p.2)

/-- Python `d.get(k, default)`. -/
def dictGetD (d : Dialogue) (k : String) (v : JVal) : JVal :=
  (dictGet d k).getD v

/-- Python `d[k] = v`: replace the value in place when the key is present,
append the pair otherwise (dict insertion-order semantics). -/
def dictSet (d : Dialogue) (k : String) (v : JVal) : Dialogue :=
  if d.any (fun p => p.1 == k) then
    d.map (fun p => if p.1 == k then (k, v) else p)
  else
    d ++ [(k, v)]

/-- Python truthiness of a `JVal` (`""`, `False`, `0` and `None` are falsy). -/
def truthy : JVal → Bool
  | JVal.str s => !(s == "")
  | JVal.bool b => b
  | JVal.num n => !(n == 0)
  | JVal.null => false

/-- Line 55: `current_audio_path and os.path.exists(current_audio_path)`.
`some true` means "skip the entry", `some false` means "try to repair it",
`none` is the `TypeError` raised when `os.path.exists` is applied to a truthy
non-string value. -/
def skipCheck (fe : String → Bool) (v : JVal) : Option Bool :=
  if truthy v then
    match v with
    | JVal.str s => some (fe s)
    | _ => none
  else
    some false

/-- Lookup in `audio_files_by_speaker` (`speaker in ...` / `...[speaker]`). -/
def lookupInv (inv : Inv) (s : String) : Option (List String) :=
  (inv.find? (fun p => p.1 == s)).map (fun p => p.2)

/-- In-place mutation of the list stored at key `s` (line 78 mutates the list
object held by the dict; the key is present whenever this is reached). -/
def setInv (inv : Inv) (s : String) (v : List String) : Inv :=
  inv.map (fun p => if p.1 == s then (s, v) else p)

/-- Python `list.remove(x)`: drop the first occurrence of `x`.  (The source
only calls it with `x` the head of the list, so the element is present.) -/
def removeFirst : List String → String → List String
  | [], _ => []
  | x :: xs, y => if x == y then xs else x :: removeFirst xs y

/-- Lines 72-75: the four fields written on an update, in source order. -/
def setAudioFields (d : Dialogue) (f : String) : Dialogue :=
  dictSet
    (dictSet
      (dictSet
        (dictSet d "AudioPath" (JVal.str f))
        "HasAudio" (JVal.bool true))
      "AudioStatus" (JVal.str "✅ Ready"))
    "AudioStatusColor" (JVal.str "Green")

/-- One iteration of the loop at lines 50-79: given the current inventory,
process one dialogue entry.  Returns the (possibly updated) entry, the new
inventory, and `some (speaker, path)` when an update was made (mirroring the
`updates_made` counter and the per-update print).  `none` is a Python
runtime error: `dialogue["Speaker"]` missing, a truthy non-string audio path
fed to `os.path.exists`, or — inside the update branch, where line 68 prints
`dialogue['Id']` and `dialogue['Text'][:50]` — a missing `Id`/`Text` key or a
non-string `Text`. -/
def processOne (fe : String → Bool) (inv : Inv) (d : Dialogue) :
    Option (Dialogue × Inv × Option (String × String)) :=
  match dictGet d "Speaker" with
  | none => none
  | some spk =>
    match skipCheck fe (dictGetD d "AudioPath" (JVal.str "")) with
    | none => none
    | some true => some (d, inv, none)
    | some false =>
      match spk with
      | JVal.str s =>
        match lookupInv inv s with
        | some (f :: rest) =>
          match dictGet d "Id", dictGet d "Text" with
          | some _, some (JVal.str _) =>
            some (setAudioFields d f, setInv inv s (removeFirst (f :: rest) f),
              some (s, f))
          | _, _ => none
        | _ => some (d, inv, none)
      | _ => some (d, inv, none)

/-- Result of a run: the rewritten catalog (in order), the final inventory,
and the list of updates made, in order. -/
structure RunState where
  out : List Dialogue
  inv : Inv
  assigned : List (String × String)
deriving DecidableEq

/-- The loop at lines 50-79 over the whole catalog: each entry is processed
against the inventory left by the previous ones and appended to the output.
(The recursion builds the same output list, final inventory and update list
as the imperative left-to-right loop.) -/
def runRepair (fe : String → Bool) (ds : List Dialogue) (inv : Inv) :
    Option RunState :=
  match ds with
  | [] => some ⟨[], inv, []⟩
  | d :: rest =>
    match processOne fe inv d with
    | none => none
    | some (d', inv', a) =>
      (runRepair fe rest inv').map
        (fun r => ⟨d' :: r.out, r.inv, a.toList ++ r.assigned⟩)

/-- One entry of `voices_dir.iterdir()`: its name, whether it is a directory,
and the full-path strings of its `glob("*.mp3")` results in listing order. -/
structure DirEnt where
  name : String
  isDir : Bool
  mp3s : List String
deriving DecidableEq

/-- Lines 37-43: build `audio_files_by_speaker` from the listing of the
voices root, skipping non-directories, the reserved `previews` name, and
directories with no `.mp3` files. -/
def buildInventory (tree : List DirEnt) : Inv :=
  tree.filterMap (fun e =>
    if e.isDir && !(e.name == "previews") && !e.mp3s.isEmpty then
      some (e.name, e.mp3s)
    else none)

/-- All paths held in some pool of the inventory. -/
def pathIn (inv : Inv) (f : String) : Bool :=
  inv.any (fun p => p.2.contains f)

/-- Whether `f` is one of the `.mp3` files of a directory literally named
`previews` in the listing. -/
def inPreviews (tree : List DirEnt) (f : String) : Bool :=
  tree.any (fun e => e.name == "previews" && e.mp3s.contains f)

/-- An absolute path as a reversed component list: head = deepest component,
`parent` = `tail`, the filesystem root = `[]`. -/
abbrev RPath := List String

/-- The loop body of `find_repo_root` (lines 15-18): while the current path
is not the filesystem root, return it if it holds a marker
(`GameWatcher.sln` or `.git`, abstracted as `hasMarker`), else ascend. -/
def findRepoRootGo (hasMarker : RPath → Bool) (fallback : RPath) :
    RPath → RPath
  | [] => fallback
  | c :: rest =>
    if hasMarker (c :: rest) then c :: rest else findRepoRootGo hasMarker fallback rest

/-- Lines 12-19: walk upward from `Path(__file__).parent.parent`; when the
walk reaches the filesystem root without finding a marker, line 19 returns
`Path(__file__).parent.parent` again as a fallback. -/
def find_repo_root (hasMarker : RPath → Bool) (start : RPath) : RPath :=
  findRepoRootGo hasMarker start start

/-- Line 23: `repo_root / "SimpleLoop" / "dialogue_catalog.json"` (reversed
component representation). -/
def catalogPathOf (root : RPath) : RPath :=
  "dialogue_catalog.json" :: "SimpleLoop" :: root

/-- Lines 22-85 of `main`, at the value level: locate the root, load the
catalog (a missing file is the fatal `FileNotFoundError` of line 31, `none`),
build the inventory and run the repair loop; the result is the catalog that
line 85 writes back. -/
def mainResult (hasMarker : RPath → Bool) (start : RPath)
    (catalogAt : RPath → Option (List Dialogue))
    (fe : String → Bool) (tree : List DirEnt) : Option RunState :=
  match catalogAt (catalogPathOf (find_repo_root hasMarker start)) with
  | none => none
  | some ds => runRepair fe ds (buildInventory tree)

/-- Concatenation of all pools of the inventory, in order. -/
def allPaths (inv : Inv) : List String :=
  (inv.map Prod.snd).flatten

/-! ### Concrete example data (used by the closed theorems and witnesses) -/

/-- An entry whose audio path names a file that exists under `guardFE`. -/
def guardValidEntry : Dialogue :=
  [("Id", JVal.num 1), ("Speaker", JVal.str "Guard"),
   ("Text", JVal.str "hello"), ("AudioPath", JVal.str "voices/Guard/a.mp3")]

/-- An entry with an empty audio path. -/
def guardBrokenEntry : Dialogue :=
  [("Id", JVal.num 2), ("Speaker", JVal.str "Guard"),
   ("Text", JVal.str "halt"), ("AudioPath", JVal.str "")]

/-- An entry with no audio-path field at all. -/
def guardMissingPathEntry : Dialogue :=
  [("Id", JVal.num 3), ("Speaker", JVal.str "Guard"),
   ("Text", JVal.str "who goes there")]

/-- An entry whose speaker has no subdirectory in the example trees. -/
def ghostEntry : Dialogue :=
  [("Id", JVal.num 4), ("Speaker", JVal.str "Ghost"),
   ("Text", JVal.str "boo"), ("AudioPath", JVal.str "")]

/-- A voices listing with one speaker directory holding two files. -/
def guardTree : List DirEnt :=
  [⟨"Guard", true, ["voices/Guard/a.mp3", "voices/Guard/b.mp3"]⟩]

/-- A voices listing that also holds a `previews` directory with a file. -/
def previewsTree : List DirEnt :=
  [⟨"Guard", true, ["voices/Guard/a.mp3"]⟩,
   ⟨"previews", true, ["voices/previews/p.mp3"]⟩]

/-- Existence predicate: exactly `voices/Guard/a.mp3` exists on disk. -/
def guardFE : String → Bool := fun q => q == "voices/Guard/a.mp3"

/-- Existence predicate: no file exists on disk. -/
def noFile : String → Bool := fun _ => false

/-- A marker predicate that never holds: no repository root is ever found. -/
def noMarker : RPath → Bool := fun _ => false

/-- A one-entry catalog served at every path. -/
def c3Catalog : List Dialogue := [guardValidEntry]

/-- A catalog-file reader that finds `c3Catalog` wherever it looks. -/
def c3CatalogAt : RPath → Option (List Dialogue) := fun _ => some c3Catalog

/-! ### Dictionary lemmas -/

theorem find?_set_ne (d : Dialogue) (k k' : String) (v : JVal) (h : ¬ k' = k) :
    (d.map (fun p => if p.1 == k then (k, v) else p)).find? (fun p => p.1 == k')
      = d.find? (fun p => p.1 == k') := by
  induction d with
  | nil => rfl
  | cons p d ih =>
    simp only [List.map_cons]
    cases hbeq : p.1 == k
    · rw [if_neg (by simp [hbeq])]
      cases hq : p.1 == k'
      · rw [List.find?_cons_of_neg _ (by simp [hq]),
          List.find?_cons_of_neg _ (by simp [hq])]
        exact ih
      · rw [List.find?_cons_of_pos _ (by simp [hq]),
          List.find?_cons_of_pos _ (by simp [hq])]
    · rw [if_pos (by simp [hbeq])]
      have hpk : p.1 = k := by simpa using hbeq
      have hkk : (k == k') = false :=
        beq_eq_false_iff_ne.mpr (fun hc => h hc.symm)
      rw [List.find?_cons_of_neg _ (by simp [hkk]),
        List.find?_cons_of_neg _ (by simp [hpk, hkk])]
      exact ih

theorem find?_set_self (d : Dialogue) (k : String) (v : JVal)
    (h : d.any (fun p => p.1 == k) = true) :
    (d.map (fun p => if p.1 == k then (k, v) else p)).find? (fun p => p.1 == k)
      = some (k, v) := by
  induction d with
  | nil => simp at h
  | cons p d ih =>
    simp only [List.map_cons]
    cases hbeq : p.1 == k
    · rw [if_neg (by simp [hbeq])]
      rw [List.find?_cons_of_neg _ (by simp [hbeq])]
      apply ih
      simpa [hbeq] using h
    · rw [if_pos (by simp [hbeq])]
      rw [List.find?_cons_of_pos _ (by simp)]

theorem dictGet_dictSet_self (d : Dialogue) (k : String) (v : JVal) :
    dictGet (dictSet d k v) k = some v := by
  unfold dictSet dictGet
  cases hany : d.any (fun p => p.1 == k)
  · rw [if_neg (by simp [hany])]
    rw [List.find?_append]
    have h1 : d.find? (fun p => p.1 == k) = none := by
      rw [List.find?_eq_none]
      intro x hx hpx
      have : d.any (fun p => p.1 == k) = true := List.any_eq_true.mpr ⟨x, hx, hpx⟩
      rw [hany] at this
      cases this
    rw [h1]
    simp [List.find?]
  · rw [if_pos (by simp [hany])]
    rw [find?_set_self d k v hany]
    rfl

theorem dictGet_dictSet_ne (d : Dialogue) (k k' : String) (v : JVal)
    (h : ¬ k' = k) : dictGet (dictSet d k v) k' = dictGet d k' := by
  unfold dictSet dictGet
  cases hany : d.any (fun p => p.1 == k)
  · rw [if_neg (by simp [hany])]
    rw [List.find?_append]
    have hkk : (k == k') = false :=
      beq_eq_false_iff_ne.mpr (fun hc => h hc.symm)
    have h2 : ([(k, v)].find? (fun p => p.1 == k')) = none := by
      simp [List.find?, hkk]
    rw [h2, Option.or_none]
  · rw [if_pos (by simp [hany])]
    rw [find?_set_ne d k k' v h]

theorem dictGet_setAudioFields_path (d : Dialogue) (f : String) :
    dictGet (setAudioFields d f) "AudioPath" = some (JVal.str f) := by
  unfold setAudioFields
  rw [dictGet_dictSet_ne _ _ _ _ (by decide), dictGet_dictSet_ne _ _ _ _ (by decide),
    dictGet_dictSet_ne _ _ _ _ (by decide), dictGet_dictSet_self]

theorem dictGet_setAudioFields_other (d : Dialogue) (f : String) (k : String)
    (h1 : ¬ k = "AudioPath") (h2 : ¬ k = "HasAudio") (h3 : ¬ k = "AudioStatus")
    (h4 : ¬ k = "AudioStatusColor") :
    dictGet (setAudioFields d f) k = dictGet d k := by
  unfold setAudioFields
  rw [dictGet_dictSet_ne _ _ _ _ h4, dictGet_dictSet_ne _ _ _ _ h3,
    dictGet_dictSet_ne _ _ _ _ h2, dictGet_dictSet_ne _ _ _ _ h1]

/-! ### Inventory lemmas -/

theorem find?_setInv_self (inv : Inv) (s : String) (v : List String)
    (h : (inv.find? (fun p => p.1 == s)).isSome = true) :
    (setInv inv s v).find? (fun p => p.1 == s) = some (s, v) := by
  unfold setInv
  induction inv with
  | nil => simp [List.find?] at h
  | cons p inv ih =>
    simp only [List.map_cons]
    cases hbeq : p.1 == s
    · rw [if_neg (by simp [hbeq])]
      rw [List.find?_cons_of_neg _ (by simp [hbeq])]
      apply ih
      rw [List.find?_cons_of_neg _ (by simp [hbeq])] at h
      exact h
    · rw [if_pos (by simp [hbeq])]
      rw [List.find?_cons_of_pos _ (by simp)]

theorem lookupInv_setInv_self (inv : Inv) (s : String) (v pl : List String)
    (h : lookupInv inv s = some pl) :
    lookupInv (setInv inv s v) s = some v := by
  have hfind : (inv.find? (fun p => p.1 == s)).isSome = true := by
    unfold lookupInv at h
    cases hf : inv.find? (fun p => p.1 == s) with
    | none => rw [hf] at h; cases h
    | some q => rfl
  unfold lookupInv
  rw [find?_setInv_self inv s v hfind]
  rfl

theorem lookupInv_setInv_ne (inv : Inv) (s s' : String) (v : List String)
    (h : ¬ s' = s) : lookupInv (setInv inv s v) s' = lookupInv inv s' := by
  unfold lookupInv setInv
  congr 1
  induction inv with
  | nil => rfl
  | cons p inv ih =>
    simp only [List.map_cons]
    cases hbeq : p.1 == s
    · rw [if_neg (by simp [hbeq])]
      cases hq : p.1 == s'
      · rw [List.find?_cons_of_neg _ (by simp [hq]),
          List.find?_cons_of_neg _ (by simp [hq])]
        exact ih
      · rw [List.find?_cons_of_pos _ (by simp [hq]),
          List.find?_cons_of_pos _ (by simp [hq])]
    · rw [if_pos (by simp [hbeq])]
      have hpk : p.1 = s := by simpa using hbeq
      have hss : (s == s') = false :=
        beq_eq_false_iff_ne.mpr (fun hc => h hc.symm)
      rw [List.find?_cons_of_neg _ (by simp [hss]),
        List.find?_cons_of_neg _ (by simp [hpk, hss])]
      exact ih

theorem keys_setInv (inv : Inv) (s : String) (v : List String) :
    (setInv inv s v).map Prod.fst = inv.map Prod.fst := by
  unfold setInv
  induction inv with
  | nil => rfl
  | cons p inv ih =>
    simp only [List.map_cons]
    cases hbeq : p.1 == s
    · rw [if_neg (by simp [hbeq])]
      simp only [List.map_cons, ih]
    · rw [if_pos (by simp [hbeq])]
      have hpk : p.1 = s := by simpa using hbeq
      simp only [List.map_cons, ih, hpk]

theorem removeFirst_cons_self (f : String) (l : List String) :
    removeFirst (f :: l) f = l := by
  simp [removeFirst]

/-! ### Per-entry step lemmas -/

theorem processOne_skip (fe : String → Bool) (inv : Inv) (d : Dialogue)
    (t : Dialogue × Inv × Option (String × String)) (p : String)
    (h : processOne fe inv d = some t)
    (hpath : dictGet d "AudioPath" = some (JVal.str p)) (hp : ¬ p = "")
    (hfe : fe p = true) : t = (d, inv, none) := by
  have hcur : dictGetD d "AudioPath" (JVal.str "") = JVal.str p := by
    unfold dictGetD
    rw [hpath]
    rfl
  have hskip : skipCheck fe (JVal.str p) = some true := by
    have hne : (p == "") = false := beq_eq_false_iff_ne.mpr hp
    simp [skipCheck, truthy, hne, hfe]
  cases hspk : dictGet d "Speaker" with
  | none =>
    unfold processOne at h
    rw [hspk] at h
    cases h
  | some spk =>
    unfold processOne at h
    rw [hspk, hcur, hskip] at h
    exact (Option.some.inj h).symm

theorem skipCheck_false_of_repair (fe : String → Bool) (p : String)
    (hp : p = "" ∨ fe p = false) :
    skipCheck fe (JVal.str p) = some false := by
  cases hpe : p == ""
  · have : fe p = false := hp.resolve_left (by simpa using hpe)
    simp [skipCheck, truthy, hpe, this]
  · simp [skipCheck, truthy, hpe]

theorem processOne_assign (fe : String → Bool) (inv : Inv) (d : Dialogue)
    (s p f : String) (rest : List String) (t : String)
    (hspk : dictGet d "Speaker" = some (JVal.str s))
    (hcur : dictGetD d "AudioPath" (JVal.str "") = JVal.str p)
    (hp : p = "" ∨ fe p = false)
    (hpool : lookupInv inv s = some (f :: rest))
    (hId : (dictGet d "Id").isSome = true)
    (hText : dictGet d "Text" = some (JVal.str t)) :
    processOne fe inv d =
      some (setAudioFields d f, setInv inv s rest, some (s, f)) := by
  obtain ⟨idv, hidv⟩ := Option.isSome_iff_exists.mp hId
  unfold processOne
  rw [hspk, hcur, skipCheck_false_of_repair fe p hp]
  dsimp only
  rw [hpool]
  dsimp only
  rw [hidv, hText]
  dsimp only
  rw [removeFirst_cons_self]

theorem processOne_noPool (fe : String → Bool) (inv : Inv) (d : Dialogue)
    (s p : String)
    (hspk : dictGet d "Speaker" = some (JVal.str s))
    (hcur : dictGetD d "AudioPath" (JVal.str "") = JVal.str p)
    (hp : p = "" ∨ fe p = false)
    (hpool : lookupInv inv s = none ∨ lookupInv inv s = some []) :
    processOne fe inv d = some (d, inv, none) := by
  unfold processOne
  rw [hspk, hcur, skipCheck_false_of_repair fe p hp]
  dsimp only
  cases hpool with
  | inl h0 => rw [h0]
  | inr h0 => rw [h0]

theorem processOne_cases (fe : String → Bool) (inv : Inv) (d : Dialogue)
    (d' : Dialogue) (inv' : Inv) (a : Option (String × String))
    (h : processOne fe inv d = some (d', inv', a)) :
    (d' = d ∧ inv' = inv ∧ a = none) ∨
      ∃ s f rest, dictGet d "Speaker" = some (JVal.str s) ∧
        lookupInv inv s = some (f :: rest) ∧ d' = setAudioFields d f ∧
        inv' = setInv inv s rest ∧ a = some (s, f) := by
  unfold processOne at h
  cases hspk : dictGet d "Speaker" with
  | none => rw [hspk] at h; cases h
  | some spk =>
    rw [hspk] at h
    cases hsc : skipCheck fe (dictGetD d "AudioPath" (JVal.str "")) with
    | none => rw [hsc] at h; cases h
    | some b =>
      rw [hsc] at h
      cases b
      · cases spk with
        | str s =>
          dsimp only at h
          cases hpool : lookupInv inv s with
          | none =>
            rw [hpool] at h
            simp only [Option.some.injEq, Prod.mk.injEq] at h
            exact Or.inl ⟨h.1.symm, h.2.1.symm, h.2.2.symm⟩
          | some pl =>
            rw [hpool] at h
            cases pl with
            | nil =>
              simp only [Option.some.injEq, Prod.mk.injEq] at h
              exact Or.inl ⟨h.1.symm, h.2.1.symm, h.2.2.symm⟩
            | cons f rest =>
              cases hid : dictGet d "Id" with
              | none => rw [hid] at h; cases h
              | some idv =>
                rw [hid] at h
                cases htext : dictGet d "Text" with
                | none => rw [htext] at h; cases h
                | some tv =>
                  rw [htext] at h
                  cases tv with
                  | str txt =>
                    dsimp only at h
                    rw [removeFirst_cons_self] at h
                    simp only [Option.some.injEq, Prod.mk.injEq] at h
                    exact Or.inr ⟨s, f, rest, rfl, hpool, h.1.symm,
                      h.2.1.symm, h.2.2.symm⟩
                  | bool b2 => cases h
                  | num n => cases h
                  | null => cases h
        | bool b2 =>
          simp only [Option.some.injEq, Prod.mk.injEq] at h
          exact Or.inl ⟨h.1.symm, h.2.1.symm, h.2.2.symm⟩
        | num n =>
          simp only [Option.some.injEq, Prod.mk.injEq] at h
          exact Or.inl ⟨h.1.symm, h.2.1.symm, h.2.2.symm⟩
        | null =>
          simp only [Option.some.injEq, Prod.mk.injEq] at h
          exact Or.inl ⟨h.1.symm, h.2.1.symm, h.2.2.symm⟩
      · simp only [Option.some.injEq, Prod.mk.injEq] at h
        exact Or.inl ⟨h.1.symm, h.2.1.symm, h.2.2.symm⟩

/-! ### Run-level structural lemmas -/

theorem runRepair_cons (fe : String → Bool) (d : Dialogue) (ds : List Dialogue)
    (inv : Inv) :
    runRepair fe (d :: ds) inv =
      match processOne fe inv d with
      | none => none
      | some (d', inv', a) =>
        (runRepair fe ds inv').map
          (fun r => ⟨d' :: r.out, r.inv, a.toList ++ r.assigned⟩) := rfl

theorem runRepair_out_length (fe : String → Bool) (ds : List Dialogue)
    (inv : Inv) (st : RunState) (h : runRepair fe ds inv = some st) :
    st.out.length = ds.length := by
  induction ds generalizing inv st with
  | nil =>
    unfold runRepair at h
    cases Option.some.inj h
    rfl
  | cons d ds ih =>
    unfold runRepair at h
    cases hp : processOne fe inv d with
    | none => rw [hp] at h; cases h
    | some tr =>
      obtain ⟨d', inv', a⟩ := tr
      rw [hp] at h
      dsimp only at h
      cases hr : runRepair fe ds inv' with
      | none => rw [hr] at h; cases h
      | some r =>
        rw [hr] at h
        cases Option.some.inj h
        simp [ih inv' r hr]

theorem runRepair_append (fe : String → Bool) (xs ys : List Dialogue)
    (inv : Inv) :
    runRepair fe (xs ++ ys) inv =
      (runRepair fe xs inv).bind (fun r1 =>
        (runRepair fe ys r1.inv).map (fun r2 =>
          ⟨r1.out ++ r2.out, r2.inv, r1.assigned ++ r2.assigned⟩)) := by
  induction xs generalizing inv with
  | nil =>
    simp only [List.nil_append, runRepair, Option.some_bind]
    cases runRepair fe ys inv with
    | none => rfl
    | some r => simp
  | cons x xs ih =>
    simp only [List.cons_append]
    rw [runRepair_cons, runRepair_cons]
    cases hp : processOne fe inv x with
    | none => rfl
    | some tr =>
      obtain ⟨d', inv', a⟩ := tr
      dsimp only
      rw [ih inv']
      cases h1 : runRepair fe xs inv' with
      | none => rfl
      | some r1 =>
        simp only [Option.some_bind, Option.map_some']
        cases h2 : runRepair fe ys r1.inv with
        | none => rfl
        | some r2 => simp

theorem pathIn_of_lookup (inv : Inv) (s f : String) (rest : List String)
    (h : lookupInv inv s = some (f :: rest)) : pathIn inv f = true := by
  unfold lookupInv at h
  cases hf : inv.find? (fun p => p.1 == s) with
  | none => rw [hf] at h; cases h
  | some q =>
    rw [hf] at h
    have hqmem : q ∈ inv := List.mem_of_find?_eq_some hf
    have hq2 : q.2 = f :: rest := Option.some.inj h
    unfold pathIn
    rw [List.any_eq_true]
    exact ⟨q, hqmem, by rw [hq2]; simp⟩

theorem pathIn_setInv_mono (inv : Inv) (s f g : String) (rest : List String)
    (hpool : lookupInv inv s = some (f :: rest))
    (h : pathIn (setInv inv s rest) g = true) : pathIn inv g = true := by
  unfold pathIn at h ⊢
  rw [List.any_eq_true] at h ⊢
  obtain ⟨q, hq, hg⟩ := h
  unfold setInv at hq
  rw [List.mem_map] at hq
  obtain ⟨p, hp, hpq⟩ := hq
  by_cases hps : (p.1 == s) = true
  · unfold lookupInv at hpool
    cases hfnd : inv.find? (fun p => p.1 == s) with
    | none => rw [hfnd] at hpool; cases hpool
    | some q0 =>
      rw [hfnd] at hpool
      have hq0mem : q0 ∈ inv := List.mem_of_find?_eq_some hfnd
      have hq02 : q0.2 = f :: rest := Option.some.inj hpool
      refine ⟨q0, hq0mem, ?_⟩
      have hqrw : q = (s, rest) := by rw [← hpq]; simp [hps]
      rw [hqrw] at hg
      have hgrest : g ∈ rest := by simpa using hg
      rw [hq02]
      simpa using List.mem_cons_of_mem f hgrest
  · have hpq' : p = q := by rw [← hpq]; simp [hps]
    exact ⟨p, hp, by rw [hpq']; exact hg⟩

/-- Positional relation between input and output: each output entry is the
corresponding input entry, either untouched or updated with some path drawn
from the initial inventory. -/
theorem runRepair_get_rel (fe : String → Bool) (ds : List Dialogue) (inv : Inv)
    (st : RunState) (h : runRepair fe ds inv = some st) (i : Nat) (d' : Dialogue)
    (hout : st.out[i]? = some d') :
    ∃ d, ds[i]? = some d ∧
      (d' = d ∨ ∃ f, pathIn inv f = true ∧ d' = setAudioFields d f) := by
  induction ds generalizing inv st i with
  | nil =>
    rw [show runRepair fe [] inv = some ⟨[], inv, []⟩ from rfl] at h
    cases Option.some.inj h
    simp at hout
  | cons d ds ih =>
    rw [runRepair_cons] at h
    cases hp : processOne fe inv d with
    | none => rw [hp] at h; cases h
    | some tr =>
      obtain ⟨d0, inv', a⟩ := tr
      rw [hp] at h
      dsimp only at h
      cases hr : runRepair fe ds inv' with
      | none => rw [hr] at h; cases h
      | some r =>
        rw [hr] at h
        cases Option.some.inj h
        cases i with
        | zero =>
          have hout0 : some d0 = some d' := by simpa using hout
          have hd0 : d0 = d' := Option.some.inj hout0
          rcases processOne_cases fe inv d d0 inv' a hp with
            h1 | ⟨s, f, rest, hspk, hpool, hd0f, hinv, ha⟩
          · exact ⟨d, by simp, Or.inl (by rw [← hd0]; exact h1.1)⟩
          · exact ⟨d, by simp, Or.inr ⟨f, pathIn_of_lookup inv s f rest hpool,
              by rw [← hd0, hd0f]⟩⟩
        | succ i =>
          have hout' : r.out[i]? = some d' := by simpa using hout
          obtain ⟨dd, hdd, hcase⟩ := ih inv' r hr i hout'
          refine ⟨dd, by simpa using hdd, ?_⟩
          cases hcase with
          | inl he => exact Or.inl he
          | inr hf =>
            obtain ⟨f, hfin, hseq⟩ := hf
            rcases processOne_cases fe inv d d0 inv' a hp with
              h1 | ⟨s, f0, rest, hspk, hpool, hd0f, hinv, ha⟩
            · rw [h1.2.1] at hfin
              exact Or.inr ⟨f, hfin, hseq⟩
            · rw [hinv] at hfin
              exact Or.inr ⟨f, pathIn_setInv_mono inv s f0 f rest hpool hfin, hseq⟩

/-- An entry whose audio path is a non-empty string naming an existing file
is copied to the output unchanged, at its original position. -/
theorem runRepair_skip_get (fe : String → Bool) (ds : List Dialogue) (inv : Inv)
    (st : RunState) (i : Nat) (d : Dialogue) (p : String)
    (h : runRepair fe ds inv = some st) (hd : ds[i]? = some d)
    (hpath : dictGet d "AudioPath" = some (JVal.str p)) (hp : ¬ p = "")
    (hfe : fe p = true) : st.out[i]? = some d := by
  induction ds generalizing inv st i with
  | nil => simp at hd
  | cons d0 ds ih =>
    rw [runRepair_cons] at h
    cases hp0 : processOne fe inv d0 with
    | none => rw [hp0] at h; cases h
    | some tr =>
      obtain ⟨d0', inv', a⟩ := tr
      rw [hp0] at h
      dsimp only at h
      cases hr : runRepair fe ds inv' with
      | none => rw [hr] at h; cases h
      | some r =>
        rw [hr] at h
        cases Option.some.inj h
        cases i with
        | zero =>
          have hd0 : d0 = d := by simpa using hd
          subst hd0
          have hstep := processOne_skip fe inv d0 (d0', inv', a) p hp0 hpath hp hfe
          simp only [Prod.mk.injEq] at hstep
          simp [hstep.1]
        | succ i =>
          have hd' : ds[i]? = some d := by simpa using hd
          simpa using ih inv' r i hr hd'

/-! ### Inventory decomposition and multiset accounting -/

theorem lookupInv_cons (p : String × List String) (inv : Inv) (s : String) :
    lookupInv (p :: inv) s = if p.1 == s then some p.2 else lookupInv inv s := by
  cases h : p.1 == s
  · rw [if_neg (by simp [h])]
    unfold lookupInv
    rw [List.find?_cons_of_neg _ (by simp [h])]
  · rw [if_pos (by simp [h])]
    unfold lookupInv
    rw [List.find?_cons_of_pos _ (by simp [h])]
    rfl

theorem setInv_append (l₁ l₂ : Inv) (s : String) (v : List String) :
    setInv (l₁ ++ l₂) s v = setInv l₁ s v ++ setInv l₂ s v := by
  unfold setInv
  rw [List.map_append]

theorem setInv_not_mem (l : Inv) (s : String) (v : List String)
    (h : ∀ q ∈ l, ¬ q.1 = s) : setInv l s v = l := by
  unfold setInv
  induction l with
  | nil => rfl
  | cons p l ih =>
    rw [List.map_cons, if_neg (by simp [h p (by simp)])]
    rw [ih (fun q hq => h q (by simp [hq]))]

theorem lookupInv_decomp (inv : Inv) (s : String) (pl : List String)
    (hkeys : (inv.map Prod.fst).Nodup) (h : lookupInv inv s = some pl) :
    ∃ pre post, inv = pre ++ (s, pl) :: post ∧
      (∀ q ∈ pre, ¬ q.1 = s) ∧ (∀ q ∈ post, ¬ q.1 = s) := by
  induction inv with
  | nil => simp [lookupInv, List.find?] at h
  | cons p inv ih =>
    rw [lookupInv_cons] at h
    cases hps : p.1 == s
    · rw [hps] at h
      simp only [Bool.false_eq_true, if_false] at h
      have htail : (inv.map Prod.fst).Nodup := (List.nodup_cons.mp (by simpa using hkeys)).2
      obtain ⟨pre, post, heq, hpre, hpost⟩ := ih htail h
      refine ⟨p :: pre, post, by rw [heq]; rfl, ?_, hpost⟩
      intro q hq
      rcases List.mem_cons.mp hq with hq1 | hq2
      · rw [hq1]
        simpa using hps
      · exact hpre q hq2
    · rw [hps] at h
      simp only [if_true] at h
      have hps' : p.1 = s := by simpa using hps
      have hp2 : p.2 = pl := Option.some.inj h
      have hpeq : p = (s, pl) := by
        cases p
        simp_all
      refine ⟨[], inv, by rw [hpeq]; rfl, by simp, ?_⟩
      intro q hq hq1
      have hmem : s ∈ inv.map Prod.fst := List.mem_map.mpr ⟨q, hq, hq1⟩
      have hnin : p.1 ∉ inv.map Prod.fst :=
        (List.nodup_cons.mp (by simpa using hkeys)).1
      rw [hps'] at hnin
      exact hnin hmem

theorem allPaths_append (l₁ l₂ : Inv) :
    allPaths (l₁ ++ l₂) = allPaths l₁ ++ allPaths l₂ := by
  unfold allPaths
  rw [List.map_append, List.flatten_append]

theorem allPaths_cons (p : String × List String) (l : Inv) :
    allPaths (p :: l) = p.2 ++ allPaths l := rfl

/-- Multiset accounting for one run: the paths handed out plus the paths
still pooled are a permutation of the initially pooled paths. -/
theorem runRepair_assigned_perm (fe : String → Bool) (ds : List Dialogue)
    (inv : Inv) (st : RunState) (hkeys : (inv.map Prod.fst).Nodup)
    (h : runRepair fe ds inv = some st) :
    (st.assigned.map Prod.snd ++ allPaths st.inv).Perm (allPaths inv) := by
  induction ds generalizing inv st with
  | nil =>
    rw [show runRepair fe [] inv = some ⟨[], inv, []⟩ from rfl] at h
    cases Option.some.inj h
    simp
  | cons d ds ih =>
    rw [runRepair_cons] at h
    cases hp : processOne fe inv d with
    | none => rw [hp] at h; cases h
    | some tr =>
      obtain ⟨d0, inv', a⟩ := tr
      rw [hp] at h
      dsimp only at h
      cases hr : runRepair fe ds inv' with
      | none => rw [hr] at h; cases h
      | some r =>
        rw [hr] at h
        cases Option.some.inj h
        rcases processOne_cases fe inv d d0 inv' a hp with
          h1 | ⟨s, f, rest, hspk, hpool, hd0f, hinv, ha⟩
        · rw [h1.2.1] at hr
          have hperm := ih inv r hkeys hr
          rw [h1.2.2]
          simpa using hperm
        · obtain ⟨pre, post, heq, hpre, hpost⟩ :=
            lookupInv_decomp inv s (f :: rest) hkeys hpool
          have hinv' : inv' = pre ++ (s, rest) :: post := by
            rw [hinv, heq, setInv_append]
            rw [setInv_not_mem pre s rest hpre]
            unfold setInv
            rw [List.map_cons, if_pos (by simp)]
            rw [show List.map (fun p => if p.1 == s then (s, rest) else p) post
                = setInv post s rest from rfl]
            rw [setInv_not_mem post s rest hpost]
          have hkeys' : (inv'.map Prod.fst).Nodup := by
            rw [hinv, keys_setInv]
            exact hkeys
          have hperm := ih inv' r hkeys' hr
          rw [ha]
          simp only [Option.toList, List.cons_append, List.nil_append,
            List.map_cons]
          refine List.Perm.trans (List.Perm.cons f hperm) ?_
          rw [hinv', heq, allPaths_append, allPaths_append, allPaths_cons,
            allPaths_cons]
          have hmid := @List.perm_middle String f (allPaths pre)
            (rest ++ allPaths post)
          simp only [List.cons_append, List.append_assoc]
          exact hmid.symm

/-- Per-speaker accounting: updates made for a speaker plus the files still
pooled for that speaker add up to the speaker's initial pool size. -/
theorem runRepair_count_pool (fe : String → Bool) (ds : List Dialogue)
    (inv : Inv) (st : RunState) (h : runRepair fe ds inv = some st)
    (s : String) :
    (st.assigned.filter (fun q => q.1 == s)).length
      + ((lookupInv st.inv s).getD []).length
      = ((lookupInv inv s).getD []).length := by
  induction ds generalizing inv st with
  | nil =>
    rw [show runRepair fe [] inv = some ⟨[], inv, []⟩ from rfl] at h
    cases Option.some.inj h
    simp
  | cons d ds ih =>
    rw [runRepair_cons] at h
    cases hp : processOne fe inv d with
    | none => rw [hp] at h; cases h
    | some tr =>
      obtain ⟨d0, inv', a⟩ := tr
      rw [hp] at h
      dsimp only at h
      cases hr : runRepair fe ds inv' with
      | none => rw [hr] at h; cases h
      | some r =>
        rw [hr] at h
        cases Option.some.inj h
        rcases processOne_cases fe inv d d0 inv' a hp with
          h1 | ⟨s0, f, rest, hspk, hpool, hd0f, hinv, ha⟩
        · rw [h1.2.1] at hr
          have hc := ih inv r hr
          rw [h1.2.2]
          simpa using hc
        · have hc := ih inv' r hr
          rw [ha]
          simp only [Option.toList, List.cons_append, List.nil_append]
          rw [List.filter_cons]
          by_cases hs : s0 = s
          · subst hs
            rw [hinv, lookupInv_setInv_self inv s0 rest (f :: rest) hpool] at hc
            rw [if_pos (by simp)]
            rw [hpool]
            simp only [List.length_cons, Option.getD_some] at hc ⊢
            omega
          · rw [hinv, lookupInv_setInv_ne inv s0 s rest
              (fun hc2 => hs hc2.symm)] at hc
            rw [if_neg (by simp [hs])]
            exact hc

/-! ### Remaining helper lemmas -/

theorem findRepoRootGo_no_marker (hasMarker : RPath → Bool) (fallback : RPath)
    (l : RPath) (h : ∀ q, hasMarker q = false) :
    findRepoRootGo hasMarker fallback l = fallback := by
  induction l with
  | nil => rfl
  | cons c rest ih =>
    unfold findRepoRootGo
    rw [h (c :: rest)]
    simp only [Bool.false_eq_true, if_false]
    exact ih

theorem buildInventory_pathIn (tree : List DirEnt) (f : String)
    (h : pathIn (buildInventory tree) f = true) :
    ∃ e ∈ tree, ¬ e.name = "previews" ∧ f ∈ e.mp3s := by
  unfold pathIn at h
  rw [List.any_eq_true] at h
  obtain ⟨q, hq, hcont⟩ := h
  unfold buildInventory at hq
  rw [List.mem_filterMap] at hq
  obtain ⟨e, he, heq⟩ := hq
  by_cases hc : (e.isDir && !(e.name == "previews") && !e.mp3s.isEmpty) = true
  · rw [if_pos hc] at heq
    have hq' : q = (e.name, e.mp3s) := (Option.some.inj heq).symm
    refine ⟨e, he, ?_, ?_⟩
    · simp only [Bool.and_eq_true, Bool.not_eq_true', beq_eq_false_iff_ne] at hc
      exact hc.1.2
    · rw [hq'] at hcont
      simpa using hcont
  · rw [if_neg hc] at heq
    cases heq

/-- Splitting a run at entry `i`: the output at position `i` is the result of
processing entry `i` against the inventory left by the first `i` entries, and
the run over the first `i + 1` entries is the prefix run extended by that one
step. -/
theorem runRepair_get_of_step (fe : String → Bool) (ds : List Dialogue)
    (inv0 : Inv) (i : Nat) (d d0 : Dialogue) (inv1 : Inv)
    (a : Option (String × String)) (stI st : RunState)
    (hd : ds[i]? = some d)
    (hpre : runRepair fe (ds.take i) inv0 = some stI)
    (hstep : processOne fe stI.inv d = some (d0, inv1, a))
    (hrun : runRepair fe ds inv0 = some st) :
    st.out[i]? = some d0 ∧
      runRepair fe (ds.take (i + 1)) inv0 =
        some ⟨stI.out ++ [d0], inv1, stI.assigned ++ a.toList⟩ := by
  have hi : i < ds.length := (List.getElem?_eq_some.mp hd).1
  have htake : ds.take (i + 1) = ds.take i ++ [d] := by
    rw [List.take_succ, hd]
    rfl
  have hone : runRepair fe [d] stI.inv = some ⟨[d0], inv1, a.toList⟩ := by
    rw [runRepair_cons, hstep]
    dsimp only
    rw [show runRepair fe [] inv1 = some ⟨[], inv1, []⟩ from rfl]
    simp
  have htakerun : runRepair fe (ds.take (i + 1)) inv0 =
      some ⟨stI.out ++ [d0], inv1, stI.assigned ++ a.toList⟩ := by
    rw [htake, runRepair_append, hpre]
    simp only [Option.some_bind]
    rw [hone]
    rfl
  refine ⟨?_, htakerun⟩
  have hsplit2 : ds = ds.take (i + 1) ++ ds.drop (i + 1) :=
    (List.take_append_drop (i + 1) ds).symm
  rw [hsplit2, runRepair_append, htakerun] at hrun
  simp only [Option.some_bind] at hrun
  cases hrest : runRepair fe (ds.drop (i + 1)) inv1 with
  | none => rw [hrest] at hrun; cases hrun
  | some r2 =>
    rw [hrest] at hrun
    simp only [Option.map_some'] at hrun
    cases Option.some.inj hrun
    have hlen : stI.out.length = i := by
      rw [runRepair_out_length fe (ds.take i) inv0 stI hpre]
      rw [List.length_take i ds]
      exact Nat.min_eq_left (Nat.le_of_lt hi)
    have hlen2 : (stI.out ++ [d0]).length = i + 1 := by
      simp [hlen]
    rw [List.getElem?_append_left (by omega)]
    rw [List.getElem?_append_right (by omega)]
    rw [hlen]
    simp

/-! ### Claims -/

/-- C1: for every dialogue entry whose audio path is empty or points to a
nonexistent file and whose speaker has a non-empty pool in the audio
inventory at the moment the entry is processed, the repair pass assigns the
entry the first remaining file of that speaker's pool (via the four writes of
lines 72-75: path, has-audio `true`, status `"✅ Ready"`, color `"Green"`)
and removes the consumed file from the speaker's pool.  The `Id`/`Text`
hypotheses only rule out the `KeyError` of the progress print at line 68. -/
theorem claim1_assigns_first_remaining_file (fe : String → Bool)
    (tree : List DirEnt) (ds : List Dialogue) (i : Nat) (d : Dialogue)
    (s p f t : String) (rest : List String) (stI st : RunState)
    (hd : ds[i]? = some d)
    (hspk : dictGet d "Speaker" = some (JVal.str s))
    (hcur : dictGetD d "AudioPath" (JVal.str "") = JVal.str p)
    (hbroken : p = "" ∨ fe p = false)
    (hId : (dictGet d "Id").isSome = true)
    (hText : dictGet d "Text" = some (JVal.str t))
    (hpre : runRepair fe (ds.take i) (buildInventory tree) = some stI)
    (hpool : lookupInv stI.inv s = some (f :: rest))
    (hrun : runRepair fe ds (buildInventory tree) = some st) :
    st.out[i]? = some (setAudioFields d f) ∧
      ∃ stI2, runRepair fe (ds.take (i + 1)) (buildInventory tree) = some stI2 ∧
        lookupInv stI2.inv s = some rest := by
  have hstep := processOne_assign fe stI.inv d s p f rest t hspk hcur hbroken
    hpool hId hText
  obtain ⟨h1, h2⟩ := runRepair_get_of_step fe ds (buildInventory tree) i d
    (setAudioFields d f) (setInv stI.inv s rest) (some (s, f)) stI st hd hpre
    hstep hrun
  exact ⟨h1, ⟨_, h2, lookupInv_setInv_self stI.inv s rest (f :: rest) hpool⟩⟩

/-- C1 witness: a one-entry catalog for speaker Guard with an empty path
gets the first of the two pooled files. -/
theorem claim1_witness :
    (RunState.mk [setAudioFields guardBrokenEntry "voices/Guard/a.mp3"]
        [("Guard", ["voices/Guard/b.mp3"])]
        [("Guard", "voices/Guard/a.mp3")]).out[0]? =
      some (setAudioFields guardBrokenEntry "voices/Guard/a.mp3") :=
  (claim1_assigns_first_remaining_file noFile guardTree [guardBrokenEntry] 0
    guardBrokenEntry "Guard" "" "voices/Guard/a.mp3" "halt"
    ["voices/Guard/b.mp3"] ⟨[], buildInventory guardTree, []⟩
    ⟨[setAudioFields guardBrokenEntry "voices/Guard/a.mp3"],
      [("Guard", ["voices/Guard/b.mp3"])], [("Guard", "voices/Guard/a.mp3")]⟩
    (by decide) (by decide) (by decide) (Or.inl rfl) (by decide) (by decide)
    (by decide) (by decide) (by decide)).1

/-- C2: an entry whose audio path is a non-empty string naming a file that
exists at the start of the pass is left entirely unchanged, at its original
position; consequently a second run (with any freshly built inventory) also
leaves it unchanged. -/
theorem claim2_existing_path_untouched_and_idempotent (fe : String → Bool)
    (ds : List Dialogue) (inv inv2 : Inv) (st st2 : RunState) (i : Nat)
    (d : Dialogue) (p : String)
    (hd : ds[i]? = some d)
    (hpath : dictGet d "AudioPath" = some (JVal.str p)) (hp : ¬ p = "")
    (hfe : fe p = true)
    (hrun : runRepair fe ds inv = some st)
    (hrun2 : runRepair fe st.out inv2 = some st2) :
    st.out[i]? = some d ∧ st2.out[i]? = some d := by
  have h1 := runRepair_skip_get fe ds inv st i d p hrun hd hpath hp hfe
  exact ⟨h1, runRepair_skip_get fe st.out inv2 st2 i d p hrun2 h1 hpath hp hfe⟩

/-- C2 witness: the Guard entry whose file exists is unchanged by two
consecutive runs. -/
theorem claim2_witness :
    (RunState.mk [guardValidEntry]
        [("Guard", ["voices/Guard/a.mp3", "voices/Guard/b.mp3"])] []).out[0]? =
      some guardValidEntry ∧
    (RunState.mk [guardValidEntry]
        [("Guard", ["voices/Guard/a.mp3", "voices/Guard/b.mp3"])] []).out[0]? =
      some guardValidEntry :=
  claim2_existing_path_untouched_and_idempotent guardFE [guardValidEntry]
    (buildInventory guardTree) (buildInventory guardTree)
    ⟨[guardValidEntry], [("Guard", ["voices/Guard/a.mp3", "voices/Guard/b.mp3"])], []⟩
    ⟨[guardValidEntry], [("Guard", ["voices/Guard/a.mp3", "voices/Guard/b.mp3"])], []⟩
    0 guardValidEntry "voices/Guard/a.mp3" (by decide) (by decide) (by decide)
    (by decide) (by decide) (by decide)

/-- C3 counterexample: with a marker predicate that never holds — the
upward walk reaches the filesystem root without finding a repository root —
the process does not abort: `find_repo_root` silently falls back to the
script's grandparent directory (line 19) and, the catalog being readable
there, the repair pass runs to completion. -/
theorem claim3_counterexample :
    mainResult noMarker ["GameWatcher", "home"] c3CatalogAt guardFE guardTree =
      some ⟨[guardValidEntry],
        [("Guard", ["voices/Guard/a.mp3", "voices/Guard/b.mp3"])], []⟩ := by
  decide

/-- C3 amended: when no marker is ever found, `find_repo_root` returns its
starting directory (the script's grandparent) as a fallback instead of
aborting; the process then aborts iff the catalog file is missing at the
fallback location, and otherwise performs the repair pass there. -/
theorem claim3_amended_fallback (hasMarker : RPath → Bool) (start : RPath)
    (catalogAt : RPath → Option (List Dialogue)) (fe : String → Bool)
    (tree : List DirEnt) (h : ∀ q, hasMarker q = false) :
    find_repo_root hasMarker start = start ∧
    (catalogAt (catalogPathOf start) = none →
      mainResult hasMarker start catalogAt fe tree = none) ∧
    (∀ ds, catalogAt (catalogPathOf start) = some ds →
      mainResult hasMarker start catalogAt fe tree =
        runRepair fe ds (buildInventory tree)) := by
  have hroot : find_repo_root hasMarker start = start := by
    unfold find_repo_root
    exact findRepoRootGo_no_marker hasMarker start start h
  refine ⟨hroot, ?_, ?_⟩
  · intro hnone
    unfold mainResult
    rw [hroot, hnone]
  · intro ds hsome
    unfold mainResult
    rw [hroot, hsome]

/-- C3 amended witness: concrete never-true marker, catalog present at the
fallback. -/
theorem claim3_amended_fallback_witness :
    find_repo_root noMarker ["GameWatcher", "home"] = ["GameWatcher", "home"] ∧
      mainResult noMarker ["GameWatcher", "home"] c3CatalogAt guardFE guardTree =
        runRepair guardFE c3Catalog (buildInventory guardTree) := by
  have h := claim3_amended_fallback noMarker ["GameWatcher", "home"] c3CatalogAt
    guardFE guardTree (fun q => rfl)
  exact ⟨h.1, h.2.2 c3Catalog rfl⟩

/-- C4: when the inventory keys are distinct and the pooled paths are
globally distinct (true of a real directory listing, where every pool path
is prefixed by its own speaker directory), any two updates made in the same
run hand out different paths. -/
theorem claim4_distinct_assigned_paths (fe : String → Bool)
    (tree : List DirEnt) (ds : List Dialogue) (st : RunState)
    (hkeys : ((buildInventory tree).map Prod.fst).Nodup)
    (hpaths : (allPaths (buildInventory tree)).Nodup)
    (hrun : runRepair fe ds (buildInventory tree) = some st) :
    st.assigned.Pairwise (fun q q2 => ¬ q.2 = q2.2) := by
  have hperm := runRepair_assigned_perm fe ds (buildInventory tree) st hkeys hrun
  have hnd : (st.assigned.map Prod.snd ++ allPaths st.inv).Nodup :=
    hperm.nodup_iff.mpr hpaths
  have hnd2 : (st.assigned.map Prod.snd).Nodup := hnd.of_append_left
  exact List.pairwise_map.mp hnd2

/-- C4 witness: two broken Guard entries drain the two distinct pooled
files. -/
theorem claim4_witness :
    (RunState.mk
        [setAudioFields guardBrokenEntry "voices/Guard/a.mp3",
          setAudioFields guardMissingPathEntry "voices/Guard/b.mp3"]
        [("Guard", [])]
        [("Guard", "voices/Guard/a.mp3"), ("Guard", "voices/Guard/b.mp3")])
      |>.assigned.Pairwise (fun q q2 => ¬ q.2 = q2.2) :=
  claim4_distinct_assigned_paths noFile guardTree
    [guardBrokenEntry, guardMissingPathEntry]
    ⟨[setAudioFields guardBrokenEntry "voices/Guard/a.mp3",
        setAudioFields guardMissingPathEntry "voices/Guard/b.mp3"],
      [("Guard", [])],
      [("Guard", "voices/Guard/a.mp3"), ("Guard", "voices/Guard/b.mp3")]⟩
    (by decide) (by decide) (by decide)

/-- C5: an entry that needs repair but whose speaker has no pool (no
matching subdirectory, empty subdirectory — both dropped by the inventory
build — or a pool exhausted earlier in the run) is processed without error
into the output unchanged, at its original position. -/
theorem claim5_unresolvable_left_unchanged (fe : String → Bool)
    (tree : List DirEnt) (ds : List Dialogue) (i : Nat) (d : Dialogue)
    (s p : String) (stI st : RunState)
    (hd : ds[i]? = some d)
    (hspk : dictGet d "Speaker" = some (JVal.str s))
    (hcur : dictGetD d "AudioPath" (JVal.str "") = JVal.str p)
    (hbroken : p = "" ∨ fe p = false)
    (hpre : runRepair fe (ds.take i) (buildInventory tree) = some stI)
    (hpool : lookupInv stI.inv s = none ∨ lookupInv stI.inv s = some [])
    (hrun : runRepair fe ds (buildInventory tree) = some st) :
    processOne fe stI.inv d = some (d, stI.inv, none) ∧ st.out[i]? = some d := by
  have hstep := processOne_noPool fe stI.inv d s p hspk hcur hbroken hpool
  obtain ⟨h1, h2⟩ := runRepair_get_of_step fe ds (buildInventory tree) i d d
    stI.inv none stI st hd hpre hstep hrun
  exact ⟨hstep, h1⟩

/-- C5 witness: a Ghost entry with no matching subdirectory is passed
through unchanged, non-fatally. -/
theorem claim5_witness :
    processOne noFile
        (RunState.mk ([] : List Dialogue) (buildInventory guardTree)
          ([] : List (String × String))).inv ghostEntry =
      some (ghostEntry,
        (RunState.mk ([] : List Dialogue) (buildInventory guardTree)
          ([] : List (String × String))).inv, none) ∧
    (RunState.mk [ghostEntry] (buildInventory guardTree)
        ([] : List (String × String))).out[0]? = some ghostEntry :=
  claim5_unresolvable_left_unchanged noFile guardTree [ghostEntry] 0 ghostEntry
    "Ghost" "" ⟨[], buildInventory guardTree, []⟩
    ⟨[ghostEntry], buildInventory guardTree, []⟩
    (by decide) (by decide) (by decide) (Or.inl rfl) (by decide)
    (Or.inl (by decide)) (by decide)

/-- C6: for every speaker, the number of updates made in one run is at most
the number of audio files discovered for that speaker when the inventory was
built at the start of the run. -/
theorem claim6_at_most_initial_pool (fe : String → Bool) (tree : List DirEnt)
    (ds : List Dialogue) (st : RunState) (s : String)
    (hrun : runRepair fe ds (buildInventory tree) = some st) :
    (st.assigned.filter (fun q => q.1 == s)).length ≤
      ((lookupInv (buildInventory tree) s).getD []).length := by
  have hc := runRepair_count_pool fe ds (buildInventory tree) st hrun s
  omega

/-- C6 witness: one update for Guard against a two-file pool. -/
theorem claim6_witness :
    ((RunState.mk [setAudioFields guardBrokenEntry "voices/Guard/a.mp3"]
        [("Guard", ["voices/Guard/b.mp3"])]
        [("Guard", "voices/Guard/a.mp3")]).assigned.filter
          (fun q => q.1 == "Guard")).length ≤
      ((lookupInv (buildInventory guardTree) "Guard").getD []).length :=
  claim6_at_most_initial_pool noFile guardTree [guardBrokenEntry]
    ⟨[setAudioFields guardBrokenEntry "voices/Guard/a.mp3"],
      [("Guard", ["voices/Guard/b.mp3"])], [("Guard", "voices/Guard/a.mp3")]⟩
    "Guard" (by decide)

/-- C7: provided the non-`previews` directory listings share no path with a
`previews` listing (true of real filesystem listings), every output entry
either keeps its input audio path or carries a path that is not a file of
any `previews` directory — so no entry is ever assigned a file from
`previews`, even when `previews` holds audio files. -/
theorem claim7_no_previews_assignment (fe : String → Bool)
    (tree : List DirEnt) (ds : List Dialogue) (st : RunState) (i : Nat)
    (d' : Dialogue)
    (hdisj : ∀ e ∈ tree, ¬ e.name = "previews" →
      ∀ f, f ∈ e.mp3s → inPreviews tree f = false)
    (hrun : runRepair fe ds (buildInventory tree) = some st)
    (hout : st.out[i]? = some d') :
    dictGet d' "AudioPath" = dictGet (ds[i]?.getD []) "AudioPath" ∨
      ∃ f, dictGet d' "AudioPath" = some (JVal.str f) ∧
        inPreviews tree f = false := by
  obtain ⟨d, hdin, hcase⟩ :=
    runRepair_get_rel fe ds (buildInventory tree) st hrun i d' hout
  cases hcase with
  | inl he =>
    left
    rw [he, hdin]
    rfl
  | inr hf =>
    obtain ⟨f, hfin, hseq⟩ := hf
    right
    refine ⟨f, by rw [hseq]; exact dictGet_setAudioFields_path d f, ?_⟩
    obtain ⟨e, he, hnp, hmem⟩ := buildInventory_pathIn tree f hfin
    exact hdisj e he hnp f hmem

/-- C7 witness: with `previews` holding a file, the repaired entry's path is
not a `previews` file. -/
theorem claim7_witness :
    dictGet (setAudioFields guardBrokenEntry "voices/Guard/a.mp3") "AudioPath" =
        dictGet (([guardBrokenEntry] : List Dialogue)[0]?.getD [])
          "AudioPath" ∨
      ∃ f, dictGet (setAudioFields guardBrokenEntry "voices/Guard/a.mp3")
            "AudioPath" = some (JVal.str f) ∧
          inPreviews previewsTree f = false :=
  claim7_no_previews_assignment noFile previewsTree [guardBrokenEntry]
    ⟨[setAudioFields guardBrokenEntry "voices/Guard/a.mp3"], [("Guard", [])],
      [("Guard", "voices/Guard/a.mp3")]⟩
    0 (setAudioFields guardBrokenEntry "voices/Guard/a.mp3")
    (by decide) (by decide) (by decide)

/-- C8: a run preserves the number and order of entries, and every field
other than the four written by the repair logic (`AudioPath`, `HasAudio`,
`AudioStatus`, `AudioStatusColor`) — identifier, speaker, text and unknown
extras alike — reads the same before and after. -/
theorem claim8_untouched_fields_preserved (fe : String → Bool)
    (tree : List DirEnt) (ds : List Dialogue) (st : RunState)
    (hrun : runRepair fe ds (buildInventory tree) = some st) :
    st.out.length = ds.length ∧
      ∀ (i : Nat) (d d' : Dialogue), ds[i]? = some d → st.out[i]? = some d' →
        ∀ k, ¬ k = "AudioPath" → ¬ k = "HasAudio" → ¬ k = "AudioStatus" →
          ¬ k = "AudioStatusColor" → dictGet d' k = dictGet d k := by
  refine ⟨runRepair_out_length fe ds (buildInventory tree) st hrun, ?_⟩
  intro i d d' hd hout k h1 h2 h3 h4
  obtain ⟨d0, hd0, hcase⟩ :=
    runRepair_get_rel fe ds (buildInventory tree) st hrun i d' hout
  have hdd : d0 = d := by
    rw [hd] at hd0
    exact (Option.some.inj hd0).symm
  subst hdd
  cases hcase with
  | inl he => rw [he]
  | inr hf =>
    obtain ⟨f, hfin, hseq⟩ := hf
    rw [hseq]
    exact dictGet_setAudioFields_other d0 f k h1 h2 h3 h4

/-- C8 witness: after an update, the `Text` field of the updated entry reads
as before. -/
theorem claim8_witness :
    dictGet (setAudioFields guardBrokenEntry "voices/Guard/a.mp3") "Text" =
      dictGet guardBrokenEntry "Text" :=
  (claim8_untouched_fields_preserved noFile guardTree [guardBrokenEntry]
    ⟨[setAudioFields guardBrokenEntry "voices/Guard/a.mp3"],
      [("Guard", ["voices/Guard/b.mp3"])], [("Guard", "voices/Guard/a.mp3")]⟩
    (by decide)).2 0 guardBrokenEntry
    (setAudioFields guardBrokenEntry "voices/Guard/a.mp3")
    (by decide) (by decide) "Text" (by decide) (by decide) (by decide)
    (by decide)

/-- C9: the inventory is built from the directory listing alone, without
excluding files already referenced by valid entries: concretely, a catalog
with a valid Guard entry referencing `voices/Guard/a.mp3` and a broken Guard
entry yields, after one run, the broken entry repaired to that very same
file while the valid entry is untouched — two entries referencing one
file. -/
theorem claim9_inventory_ignores_existing_references :
    runRepair guardFE [guardValidEntry, guardBrokenEntry]
        (buildInventory guardTree) =
      some ⟨[guardValidEntry,
          setAudioFields guardBrokenEntry "voices/Guard/a.mp3"],
        [("Guard", ["voices/Guard/b.mp3"])],
        [("Guard", "voices/Guard/a.mp3")]⟩ ∧
    dictGet guardValidEntry "AudioPath" =
      some (JVal.str "voices/Guard/a.mp3") ∧
    dictGet (setAudioFields guardBrokenEntry "voices/Guard/a.mp3")
        "AudioPath" = some (JVal.str "voices/Guard/a.mp3") := by
  refine ⟨by decide, by decide, by decide⟩

/-- C10: an entry with no audio-path field at all raises no error: the
`dialogue.get("AudioPath", "")` lookup of line 52 defaults to the empty
string, so the entry is treated exactly like one with an empty audio path —
assigned the speaker's first pooled file when one is available, skipped
non-fatally otherwise. -/
theorem claim10_missing_audio_path_defaults_empty (fe : String → Bool)
    (inv : Inv) (d : Dialogue) (s t : String)
    (hnoap : dictGet d "AudioPath" = none)
    (hspk : dictGet d "Speaker" = some (JVal.str s))
    (hId : (dictGet d "Id").isSome = true)
    (hText : dictGet d "Text" = some (JVal.str t)) :
    processOne fe inv d =
      match lookupInv inv s with
      | some (f :: rest) =>
          some (setAudioFields d f, setInv inv s rest, some (s, f))
      | _ => some (d, inv, none) := by
  have hcur : dictGetD d "AudioPath" (JVal.str "") = JVal.str "" := by
    unfold dictGetD
    rw [hnoap]
    rfl
  cases hpool : lookupInv inv s with
  | none =>
    rw [processOne_noPool fe inv d s "" hspk hcur (Or.inl rfl) (Or.inl hpool)]
  | some pl =>
    cases pl with
    | nil =>
      rw [processOne_noPool fe inv d s "" hspk hcur (Or.inl rfl) (Or.inr hpool)]
    | cons f rest =>
      rw [processOne_assign fe inv d s "" f rest t hspk hcur (Or.inl rfl)
        hpool hId hText]

/-- C10 witness: the field-less Guard entry against the Guard pool. -/
theorem claim10_witness :
    processOne noFile (buildInventory guardTree) guardMissingPathEntry =
      match lookupInv (buildInventory guardTree) "Guard" with
      | some (f :: rest) =>
          some (setAudioFields guardMissingPathEntry f,
            setInv (buildInventory guardTree) "Guard" rest, some ("Guard", f))
      | _ => some (guardMissingPathEntry, buildInventory guardTree, none) :=
  claim10_missing_audio_path_defaults_empty noFile (buildInventory guardTree)
    guardMissingPathEntry "Guard" "who goes there" (by decide) (by decide)
    (by decide) (by decide)

end FixAudio
